import Mathlib

/-!
Shallow embedding of the checkpoint/reload subsystem of
`src/shared/io_system/io_base.cpp` (namespace SPH): the path/naming scheme,
`BaseIO::convertPhysicalTimeToString`, `RestartIO` and `ReloadParticleIO`.
`Real` is idealized as `ℚ`; the filesystem is an association list from full
paths to file contents; the fatal `exit(1)` paths are modelled with `Except`.
-/

/-- Configured zero-padding field width for file-name tokens: the naming
scheme fixes a field width of six digits, as in the token `000005`. -/
def fieldWidth : Nat := 6

/-- Decimal digit characters of `n / 1`, most significant first, produced
with structural fuel so that it evaluates by kernel reduction; `fuel ≥ n`
makes it total on the digits of `n`. -/
def decimalCharsAux (fuel : Nat) (n : Nat) : List Char :=
  match fuel, n with
  | _, 0 => []
  | 0, _ => []
  | fuel + 1, n + 1 =>
      decimalCharsAux fuel ((n + 1) / 10) ++ [Nat.digitChar ((n + 1) % 10)]

/-- Decimal representation of a natural number as a character list, as
`std::ostringstream << number` renders an unsigned integer. -/
def decimalChars (n : Nat) : List Char :=
  if n = 0 then ['0'] else decimalCharsAux n n

/-- The natural decimal string of a number, with no padding. -/
def natToDecimalString (n : Nat) : String :=
  String.mk (decimalChars n)

/-- Modelled from the spec: `padValueWithZeros` is declared in `io_base.h`,
which is not among the sources here; the naming scheme says: left-pad the
decimal representation with `'0'` to the configured field width, and use
the full representation unchanged when it is already longer. This mirrors
`std::setw(set_width) << std::setfill('0') << number` on an unsigned
integer. -/
def padValueWithZeros (number : Nat) (set_width : Nat) : String :=
  String.mk (List.replicate (set_width - (decimalChars number).length) '0' ++ decimalChars number)

/-- C++ cast from a real value to `int`: truncation toward zero. -/
def cppTruncToInt (q : ℚ) : ℤ :=
  if 0 ≤ q then ⌊q⌋ else ⌈q⌉

/-- Decimal rounding performed by `std::fixed << std::setprecision(9)` when
the physical time is written: the text carries exactly nine fractional
digits. -/
def roundTo9 (t : ℚ) : ℚ :=
  ((⌊t * 10 ^ 9 + 1 / 2⌋ : ℤ) : ℚ) / 10 ^ 9

/-- `BaseIO::convertPhysicalTimeToString`: the token is computed from the
global `GlobalStaticVariables::physical_time_` (the first explicit argument
here), not from the function parameter `convertPhysicalTimeToStream`.
Simulation time is nonnegative, so the `int` to `size_t` narrowing is taken
on a nonnegative value. -/
def convertPhysicalTimeToString (physical_time_ : ℚ) (convertPhysicalTimeToStream : ℚ) : String :=
  padValueWithZeros (cppTruncToInt (physical_time_ * 1000000)).toNat fieldWidth

/-- Content of one file in the modelled filesystem: either the overall
restart time file (the list of lines written to it, each one physical-time
value) or an opaque per-body particle snapshot. -/
inductive FileContent where
  | timeFile (lines : List ℚ)
  | bodyFile (state : Nat)
deriving DecidableEq

/-- The filesystem: an association list from full paths to file contents. -/
abbrev FS := List (String × FileContent)

/-- Path lookup, first matching entry. -/
def fsLookup (p : String) (fs : FS) : Option FileContent :=
  match fs with
  | [] => none
  | (q, c) :: rest => if q = p then some c else fsLookup p rest

/-- `fs::exists`. -/
def fsExists (p : String) (fs : FS) : Bool :=
  (fsLookup p fs).isSome

/-- `fs::remove`. -/
def fsRemove (p : String) (fs : FS) : FS :=
  match fs with
  | [] => []
  | (q, c) :: rest => if q = p then fsRemove p rest else (q, c) :: fsRemove p rest

/-- Overwrite-or-create a file, as a body serialization capability does
when handed a path. -/
def fsSet (p : String) (c : FileContent) (fs : FS) : FS :=
  match fs with
  | [] => [(p, c)]
  | (q, c0) :: rest => if q = p then (p, c) :: rest else (q, c0) :: fsSet p c rest

/-- `std::ofstream` opened with `std::ios::app` followed by one output of a
time line: append the line to an existing time file, or create the file
with that single line. A pre-existing file that is not a time file is left
as is (its textual garbling is owned by the stream, and the operation below
only reaches this function after removing the file). -/
def fsAppendTimeLine (p : String) (t : ℚ) (fs : FS) : FS :=
  match fsLookup p fs with
  | some (FileContent.timeFile ls) => fsSet p (FileContent.timeFile (ls ++ [t])) fs
  | some (FileContent.bodyFile s) => fsSet p (FileContent.bodyFile s) fs
  | none => fs ++ [(p, FileContent.timeFile [t])]

deriving instance DecidableEq for Except

/-- A simulated body as this subsystem sees it: a name and an opaque,
independently serializable particle state. -/
structure SPHBody where
  name : String
  state : Nat
deriving DecidableEq

/-- Observable effect of the fatal path: the diagnostic printed to standard
output and the status passed to `exit`. -/
structure FatalExit where
  diagnostic : String
  status : Nat
deriving DecidableEq

/-- The diagnostic printed before `exit(1)` when an input file is missing. -/
def missingFileDiag (path : String) : String :=
  "\n Error: the input file:" ++ path ++ " is not exists"

/-- Body capabilities `readParticlesFromXmlForRestart` and
`readFromXmlForReloadParticle`: deserialize the opaque particle state from
a file. Behavior on a file that is not a body snapshot is owned by the
body, not by this subsystem; the model leaves the state unchanged there
(the operations below never reach that case). -/
def readBodyContent (c : FileContent) (old : Nat) : Nat :=
  match c with
  | FileContent.bodyFile s => s
  | FileContent.timeFile _ => old

/-- `in_file >> restart_time`: parse the leading numeric field of the
overall file; per C++11 stream semantics a failed extraction stores zero. -/
def parseLeadingReal (c : FileContent) : ℚ :=
  match c with
  | FileContent.timeFile (t :: _) => t
  | FileContent.timeFile [] => 0
  | FileContent.bodyFile _ => 0

/-- `RestartIO`: the overall time-file base path and the per-body base
paths, both fixed at construction. -/
structure RestartIO where
  overall_file_path_ : String
  file_names_ : List String
deriving DecidableEq

/-- `RestartIO::RestartIO`: base paths derived from the restart folder and
the body names. -/
def RestartIO.make (restart_folder_ : String) (bodies : List SPHBody) : RestartIO :=
  { overall_file_path_ := restart_folder_ ++ "/Restart_time_"
  , file_names_ := bodies.map (fun body => restart_folder_ ++ "/" ++ body.name ++ "_rst_") }

/-- Per-body loop of `RestartIO::writeToFile`: delete the file if it
exists, then let the body serialize its current state there. -/
def writeRestartBodyFiles (iteration_step : Nat) (pairs : List (String × SPHBody)) (fs : FS) : FS :=
  match pairs with
  | [] => fs
  | (fname, body) :: rest =>
      let filefullpath := fname ++ padValueWithZeros iteration_step fieldWidth ++ ".xml"
      let fs1 := if fsExists filefullpath fs then fsRemove filefullpath fs else fs
      writeRestartBodyFiles iteration_step rest (fsSet filefullpath (FileContent.bodyFile body.state) fs1)

/-- `RestartIO::writeToFile`: delete the overall file if present, append
one line holding the physical time at nine fractional digits, then write
each body file in list order (each deleted first if present). `bodies` are
the construction-time bodies with their current states. -/
def RestartIO.writeToFile (rio : RestartIO) (bodies : List SPHBody) (physical_time_ : ℚ)
    (fs : FS) (iteration_step : Nat) : FS :=
  let overall_filefullpath := rio.overall_file_path_ ++ padValueWithZeros iteration_step fieldWidth ++ ".dat"
  let fs1 := if fsExists overall_filefullpath fs then fsRemove overall_filefullpath fs else fs
  let fs2 := fsAppendTimeLine overall_filefullpath (roundTo9 physical_time_) fs1
  writeRestartBodyFiles iteration_step (rio.file_names_.zip bodies) fs2

/-- `RestartIO::readRestartTime`: fatal `exit(1)` with a diagnostic naming
the missing path when the overall file does not exist, otherwise the parsed
leading time value. -/
def RestartIO.readRestartTime (rio : RestartIO) (fs : FS) (restart_step : Nat) : Except FatalExit ℚ :=
  let overall_filefullpath := rio.overall_file_path_ ++ padValueWithZeros restart_step fieldWidth ++ ".dat"
  match fsLookup overall_filefullpath fs with
  | none => Except.error { diagnostic := missingFileDiag overall_filefullpath, status := 1 }
  | some c => Except.ok (parseLeadingReal c)

/-- Per-body loop of `RestartIO::readFromFile`. On a missing file the
process exits; the error value carries the body states at the moment of the
exit (the already-deserialized prefix followed by the untouched remainder)
together with the diagnostic and status. -/
def readRestartBodies (restart_step : Nat) (pairs : List (String × SPHBody)) (fs : FS) :
    Except (List SPHBody × FatalExit) (List SPHBody) :=
  match pairs with
  | [] => Except.ok []
  | (fname, body) :: rest =>
      let filefullpath := fname ++ padValueWithZeros restart_step fieldWidth ++ ".xml"
      match fsLookup filefullpath fs with
      | none => Except.error (body :: rest.map Prod.snd,
          { diagnostic := missingFileDiag filefullpath, status := 1 })
      | some c =>
          match readRestartBodies restart_step rest fs with
          | Except.ok tl => Except.ok ({ body with state := readBodyContent c body.state } :: tl)
          | Except.error (tl, e) =>
              Except.error ({ body with state := readBodyContent c body.state } :: tl, e)

/-- `RestartIO::readFromFile`: restore the bodies independently and in list
order; fatal on the first missing per-body file. -/
def RestartIO.readFromFile (rio : RestartIO) (bodies : List SPHBody) (fs : FS) (restart_step : Nat) :
    Except (List SPHBody × FatalExit) (List SPHBody) :=
  readRestartBodies restart_step (rio.file_names_.zip bodies) fs

/-- `ReloadParticleIO`: one fixed, unindexed path per body. -/
structure ReloadParticleIO where
  file_names_ : List String
deriving DecidableEq

/-- `ReloadParticleIO::ReloadParticleIO(SPHBodyVector)`: paths derived from
the reload folder and the body names. -/
def ReloadParticleIO.make (reload_folder_ : String) (bodies : List SPHBody) : ReloadParticleIO :=
  { file_names_ := bodies.map (fun body => reload_folder_ ++ "/" ++ body.name ++ "_rld.xml") }

/-- `ReloadParticleIO::ReloadParticleIO(SPHBody &, const std::string &)`:
a single body whose file is named after the given name instead of the
body's own name. -/
def ReloadParticleIO.makeWithName (reload_folder_ : String) (sph_body : SPHBody)
    (given_body_name : String) : ReloadParticleIO :=
  { file_names_ := [reload_folder_ ++ "/" ++ given_body_name ++ "_rld.xml"] }

/-- Per-body loop of `ReloadParticleIO::writeToFile`: delete the fixed file
if it exists, then let the body serialize its layout there. -/
def writeReloadBodyFiles (pairs : List (String × SPHBody)) (fs : FS) : FS :=
  match pairs with
  | [] => fs
  | (filefullpath, body) :: rest =>
      let fs1 := if fsExists filefullpath fs then fsRemove filefullpath fs else fs
      writeReloadBodyFiles rest (fsSet filefullpath (FileContent.bodyFile body.state) fs1)

/-- `ReloadParticleIO::writeToFile`: the `iteration_step` argument is
accepted but unused; each body file is rewritten at its fixed path. -/
def ReloadParticleIO.writeToFile (rio : ReloadParticleIO) (bodies : List SPHBody)
    (fs : FS) (iteration_step : Nat) : FS :=
  writeReloadBodyFiles (rio.file_names_.zip bodies) fs

/-- Per-body loop of `ReloadParticleIO::readFromFile`; fatal on a missing
file, as for restart reads. -/
def readReloadBodies (pairs : List (String × SPHBody)) (fs : FS) :
    Except (List SPHBody × FatalExit) (List SPHBody) :=
  match pairs with
  | [] => Except.ok []
  | (filefullpath, body) :: rest =>
      match fsLookup filefullpath fs with
      | none => Except.error (body :: rest.map Prod.snd,
          { diagnostic := missingFileDiag filefullpath, status := 1 })
      | some c =>
          match readReloadBodies rest fs with
          | Except.ok tl => Except.ok ({ body with state := readBodyContent c body.state } :: tl)
          | Except.error (tl, e) =>
              Except.error ({ body with state := readBodyContent c body.state } :: tl, e)

/-- `ReloadParticleIO::readFromFile`: the `restart_step` argument is
accepted but unused. -/
def ReloadParticleIO.readFromFile (rio : ReloadParticleIO) (bodies : List SPHBody)
    (fs : FS) (restart_step : Nat) : Except (List SPHBody × FatalExit) (List SPHBody) :=
  readReloadBodies (rio.file_names_.zip bodies) fs

/-! Basic facts about strings used as paths. -/

theorem stringDataInj {s t : String} (h : s.data = t.data) : s = t := by
  cases s
  cases t
  exact congrArg String.mk h

theorem stringAppendRightCancel {a b z : String} (h : a ++ z = b ++ z) : a = b := by
  apply stringDataInj
  have h2 : (a ++ z).data = (b ++ z).data := by rw [h]
  rw [String.data_append, String.data_append] at h2
  exact List.append_cancel_right h2

theorem stringAppendLeftCancel {z a b : String} (h : z ++ a = z ++ b) : a = b := by
  apply stringDataInj
  have h2 : (z ++ a).data = (z ++ b).data := by rw [h]
  rw [String.data_append, String.data_append] at h2
  exact List.append_cancel_left h2

theorem append_dat_ne_append_xml (s t : String) : s ++ ".dat" ≠ t ++ ".xml" := by
  intro h
  have h2 : (s ++ ".dat").data.reverse.head? = (t ++ ".xml").data.reverse.head? := by rw [h]
  rw [String.data_append, String.data_append] at h2
  have e1 : ".dat".data = ['.', 'd', 'a', 't'] := rfl
  have e2 : ".xml".data = ['.', 'x', 'm', 'l'] := rfl
  rw [e1, e2, List.reverse_append, List.reverse_append] at h2
  simp only [List.reverse_cons, List.reverse_nil, List.nil_append, List.cons_append,
    List.head?_cons] at h2
  exact (by decide : ('t' : Char) ≠ 'l') (Option.some.inj h2)

/-! Lookup facts for the filesystem model. -/

theorem fsLookup_eq_none_of_not_exists {p : String} {fs : FS}
    (h : fsExists p fs = false) : fsLookup p fs = none := by
  unfold fsExists at h
  cases hl : fsLookup p fs with
  | none => rfl
  | some c => rw [hl] at h; simp at h

theorem fsLookup_fsRemove_self (p : String) (fs : FS) :
    fsLookup p (fsRemove p fs) = none := by
  induction fs with
  | nil => rfl
  | cons e rest ih =>
    obtain ⟨q, c⟩ := e
    by_cases h : q = p
    · simpa [fsRemove, h] using ih
    · simpa [fsRemove, fsLookup, h] using ih

theorem fsLookup_fsRemove_ne {p q : String} (h : q ≠ p) (fs : FS) :
    fsLookup p (fsRemove q fs) = fsLookup p fs := by
  induction fs with
  | nil => rfl
  | cons e rest ih =>
    obtain ⟨r, c⟩ := e
    by_cases hr : r = q
    · subst hr
      simp [fsRemove, fsLookup, h, ih]
    · by_cases hp : r = p
      · subst hp
        simp [fsRemove, fsLookup, hr]
      · simp [fsRemove, fsLookup, hr, hp, ih]

theorem fsLookup_fsSet_self (p : String) (c : FileContent) (fs : FS) :
    fsLookup p (fsSet p c fs) = some c := by
  induction fs with
  | nil => simp [fsSet, fsLookup]
  | cons e rest ih =>
    obtain ⟨q, c0⟩ := e
    by_cases h : q = p
    · simp [fsSet, fsLookup, h]
    · simp [fsSet, fsLookup, h, ih]

theorem fsLookup_fsSet_ne {p q : String} (h : q ≠ p) (c : FileContent) (fs : FS) :
    fsLookup p (fsSet q c fs) = fsLookup p fs := by
  induction fs with
  | nil => simp [fsSet, fsLookup, h]
  | cons e rest ih =>
    obtain ⟨r, c0⟩ := e
    by_cases hr : r = q
    · subst hr
      simp [fsSet, fsLookup, h]
    · by_cases hp : r = p
      · subst hp
        simp [fsSet, fsLookup, hr]
      · simp [fsSet, fsLookup, hr, hp, ih]

theorem fsLookup_append_some {p : String} {fs1 : FS} {c : FileContent} (fs2 : FS)
    (h : fsLookup p fs1 = some c) : fsLookup p (fs1 ++ fs2) = some c := by
  induction fs1 with
  | nil => simp [fsLookup] at h
  | cons e rest ih =>
    obtain ⟨q, c0⟩ := e
    by_cases hq : q = p
    · subst hq
      simp only [fsLookup, if_true, eq_self_iff_true, Option.some.injEq] at h
      simp [fsLookup, h]
    · simp only [fsLookup, hq, if_neg hq] at h
      simpa [fsLookup, hq] using ih h

theorem fsLookup_append_none {p : String} {fs1 : FS} (fs2 : FS)
    (h : fsLookup p fs1 = none) : fsLookup p (fs1 ++ fs2) = fsLookup p fs2 := by
  induction fs1 with
  | nil => rfl
  | cons e rest ih =>
    obtain ⟨q, c0⟩ := e
    by_cases hq : q = p
    · simp [fsLookup, hq] at h
    · simp only [fsLookup, hq, if_neg hq] at h
      simpa [fsLookup, hq] using ih h

theorem fsLookup_fsAppendTimeLine_self {p : String} {fs : FS} (t : ℚ)
    (h : fsLookup p fs = none) :
    fsLookup p (fsAppendTimeLine p t fs) = some (FileContent.timeFile [t]) := by
  unfold fsAppendTimeLine
  rw [h]
  rw [fsLookup_append_none _ h]
  simp [fsLookup]

theorem fsLookup_fsAppendTimeLine_ne {p q : String} (h : q ≠ p) (t : ℚ) (fs : FS) :
    fsLookup p (fsAppendTimeLine q t fs) = fsLookup p fs := by
  unfold fsAppendTimeLine
  cases hl : fsLookup q fs with
  | none =>
    cases hp : fsLookup p fs with
    | none => rw [fsLookup_append_none _ hp]; simp [fsLookup, h]
    | some c => rw [fsLookup_append_some _ hp]
  | some c =>
    cases c with
    | timeFile ls => rw [fsLookup_fsSet_ne h]
    | bodyFile s => rw [fsLookup_fsSet_ne h]

/-! Facts about the per-body write loop of `RestartIO::writeToFile`. -/

theorem fsLookup_writeRestartBodyFiles_notMem (k : Nat) (pairs : List (String × SPHBody))
    (fs : FS) (p : String)
    (h : ∀ pr ∈ pairs, pr.1 ++ padValueWithZeros k fieldWidth ++ ".xml" ≠ p) :
    fsLookup p (writeRestartBodyFiles k pairs fs) = fsLookup p fs := by
  induction pairs generalizing fs with
  | nil => rfl
  | cons pr rest ih =>
    obtain ⟨fname, body⟩ := pr
    have hne : fname ++ padValueWithZeros k fieldWidth ++ ".xml" ≠ p :=
      h _ (List.mem_cons_self _ _)
    have hrest : ∀ pr ∈ rest, pr.1 ++ padValueWithZeros k fieldWidth ++ ".xml" ≠ p :=
      fun pr hpr => h pr (List.mem_cons_of_mem _ hpr)
    simp only [writeRestartBodyFiles]
    rw [ih _ hrest, fsLookup_fsSet_ne hne]
    cases hex : fsExists (fname ++ padValueWithZeros k fieldWidth ++ ".xml") fs with
    | false => simp
    | true => simp [fsLookup_fsRemove_ne hne]

theorem fsLookup_writeRestartBodyFiles_mem (k : Nat) (pairs : List (String × SPHBody))
    (fs : FS) (fname : String) (body : SPHBody)
    (hnd : (pairs.map Prod.fst).Nodup)
    (hmem : (fname, body) ∈ pairs) :
    fsLookup (fname ++ padValueWithZeros k fieldWidth ++ ".xml") (writeRestartBodyFiles k pairs fs)
      = some (FileContent.bodyFile body.state) := by
  induction pairs generalizing fs with
  | nil => cases hmem
  | cons pr rest ih =>
    obtain ⟨f0, b0⟩ := pr
    simp only [List.map_cons, List.nodup_cons] at hnd
    obtain ⟨hnotin, hndrest⟩ := hnd
    rcases List.mem_cons.mp hmem with heq | hmem'
    · cases heq
      simp only [writeRestartBodyFiles]
      rw [fsLookup_writeRestartBodyFiles_notMem]
      · exact fsLookup_fsSet_self _ _ _
      · intro pr hpr hcontra
        have hfeq : pr.1 = fname :=
          stringAppendRightCancel (stringAppendRightCancel hcontra)
        exact hnotin (hfeq ▸ List.mem_map_of_mem Prod.fst hpr)
    · simp only [writeRestartBodyFiles]
      exact ih _ hndrest hmem'

/-! The per-body read loop restores exactly the written states. -/

theorem readRestartBodies_restores (k : Nat) (fs : FS) :
    ∀ (bases : List String) (written cur : List SPHBody),
      bases.length = written.length →
      cur.map SPHBody.name = written.map SPHBody.name →
      (∀ pr ∈ bases.zip written,
          fsLookup (pr.1 ++ padValueWithZeros k fieldWidth ++ ".xml") fs
            = some (FileContent.bodyFile pr.2.state)) →
      readRestartBodies k (bases.zip cur) fs = Except.ok written := by
  intro bases
  induction bases with
  | nil =>
    intro written cur hlen hname hlook
    have hw : written = [] := by
      cases written with
      | nil => rfl
      | cons w ws => simp at hlen
    subst hw
    simp [readRestartBodies]
  | cons b bs ih =>
    intro written cur hlen hname hlook
    cases written with
    | nil => simp at hlen
    | cons w ws =>
      cases cur with
      | nil => simp at hname
      | cons c cs =>
        simp only [List.map_cons, List.cons.injEq] at hname
        obtain ⟨hname0, hname1⟩ := hname
        have hlook0 := hlook (b, w) (List.mem_cons_self _ _)
        have hrest := ih ws cs (by simpa using hlen) hname1
          (fun pr hpr => hlook pr (List.mem_cons_of_mem _ hpr))
        simp only [List.zip] at hrest
        simp only [List.zip_cons_cons, List.zip, readRestartBodies, hlook0, hrest,
          readBodyContent]
        have hcw : ({ c with state := w.state } : SPHBody) = w := by
          cases c
          cases w
          simp only at hname0
          simp [hname0]
        rw [hcw]

/-! Counting entries at one path, for the overwrite guarantee. -/

def countAt (p : String) (fs : FS) : Nat :=
  fs.countP (fun e => decide (e.1 = p))

theorem countAt_eq_zero_of_lookup_none {p : String} {fs : FS}
    (h : fsLookup p fs = none) : countAt p fs = 0 := by
  induction fs with
  | nil => rfl
  | cons e rest ih =>
    obtain ⟨q, c⟩ := e
    by_cases hq : q = p
    · simp [fsLookup, hq] at h
    · simp only [fsLookup, hq, if_neg hq] at h
      simpa [countAt, List.countP_cons, hq] using ih h

theorem countAt_fsRemove_self (p : String) (fs : FS) : countAt p (fsRemove p fs) = 0 :=
  countAt_eq_zero_of_lookup_none (fsLookup_fsRemove_self p fs)

theorem countAt_fsRemove_ne {p q : String} (h : q ≠ p) (fs : FS) :
    countAt p (fsRemove q fs) = countAt p fs := by
  induction fs with
  | nil => rfl
  | cons e rest ih =>
    obtain ⟨r, c⟩ := e
    by_cases hr : r = q
    · subst hr
      have hrp : decide (r = p) = false := by simp [h]
      simp [fsRemove, countAt, List.countP_cons, hrp, ih, countAt] at ih ⊢
      omega
    · simp [fsRemove, hr, countAt, List.countP_cons] at ih ⊢
      omega

theorem countAt_fsSet_ne {p q : String} (h : q ≠ p) (c : FileContent) (fs : FS) :
    countAt p (fsSet q c fs) = countAt p fs := by
  induction fs with
  | nil => simp [fsSet, countAt, List.countP_cons, h]
  | cons e rest ih =>
    obtain ⟨r, c0⟩ := e
    by_cases hr : r = q
    · subst hr
      simp [fsSet, countAt, List.countP_cons, h]
    · simp [fsSet, hr, countAt, List.countP_cons] at ih ⊢
      omega

theorem countAt_append (p : String) (fs1 fs2 : FS) :
    countAt p (fs1 ++ fs2) = countAt p fs1 + countAt p fs2 :=
  List.countP_append _ _ _

theorem countAt_writeRestartBodyFiles_notMem (k : Nat) (pairs : List (String × SPHBody))
    (fs : FS) (p : String)
    (h : ∀ pr ∈ pairs, pr.1 ++ padValueWithZeros k fieldWidth ++ ".xml" ≠ p) :
    countAt p (writeRestartBodyFiles k pairs fs) = countAt p fs := by
  induction pairs generalizing fs with
  | nil => rfl
  | cons pr rest ih =>
    obtain ⟨fname, body⟩ := pr
    have hne : fname ++ padValueWithZeros k fieldWidth ++ ".xml" ≠ p :=
      h _ (List.mem_cons_self _ _)
    have hrest : ∀ pr ∈ rest, pr.1 ++ padValueWithZeros k fieldWidth ++ ".xml" ≠ p :=
      fun pr hpr => h pr (List.mem_cons_of_mem _ hpr)
    simp only [writeRestartBodyFiles]
    rw [ih _ hrest, countAt_fsSet_ne hne]
    cases hex : fsExists (fname ++ padValueWithZeros k fieldWidth ++ ".xml") fs with
    | false => simp
    | true => simp [countAt_fsRemove_ne hne]

/-! The decimal rendering agrees with `Nat.digits`, and padding is
invertible. -/

theorem decimalCharsAux_zero (fuel : Nat) : decimalCharsAux fuel 0 = [] := by
  cases fuel <;> rfl

theorem decimalCharsAux_spec :
    ∀ fuel n, n ≠ 0 → n ≤ fuel →
      decimalCharsAux fuel n = ((Nat.digits 10 n).map Nat.digitChar).reverse := by
  intro fuel
  induction fuel with
  | zero => intro n h0 hle; omega
  | succ f ih =>
    intro n h0 hle
    cases n with
    | zero => exact absurd rfl h0
    | succ m =>
      rw [show decimalCharsAux (f + 1) (m + 1)
            = decimalCharsAux f ((m + 1) / 10) ++ [Nat.digitChar ((m + 1) % 10)] from rfl]
      rw [Nat.digits_def' (by norm_num : (1 : ℕ) < 10) (Nat.succ_pos m)]
      simp only [List.map_cons, List.reverse_cons]
      congr 1
      by_cases hq : (m + 1) / 10 = 0
      · rw [hq, decimalCharsAux_zero]
        simp
      · have hd : (m + 1) / 10 < m + 1 := Nat.div_lt_self (Nat.succ_pos m) (by norm_num)
        rw [ih _ hq (by omega)]

theorem decimalChars_eq {n : Nat} (h : n ≠ 0) :
    decimalChars n = ((Nat.digits 10 n).map Nat.digitChar).reverse := by
  rw [decimalChars, if_neg h]
  exact decimalCharsAux_spec n n h le_rfl

/-- Inverse of the decimal rendering: strip leading zero characters, read
the digits back and recombine. -/
def charToDigit (c : Char) : Nat := c.toNat - 48

/-- Recover a number from its zero-padded decimal rendering. -/
def unpadDecimal (l : List Char) : Nat :=
  Nat.ofDigits 10 (((List.dropWhile (fun c => c == '0') l).map charToDigit).reverse)

theorem charToDigit_digitChar {d : Nat} (h : d < 10) :
    charToDigit (Nat.digitChar d) = d := by
  interval_cases d <;> decide

theorem digitChar_ne_zeroChar {d : Nat} (h0 : d ≠ 0) (h : d < 10) :
    (Nat.digitChar d == '0') = false := by
  have h1 : 0 < d := Nat.pos_of_ne_zero h0
  interval_cases d <;> decide

theorem dropWhile_replicate_zero_append (k : Nat) (l : List Char) :
    List.dropWhile (fun c => c == '0') (List.replicate k '0' ++ l)
      = List.dropWhile (fun c => c == '0') l := by
  induction k with
  | zero => rfl
  | succ m ih => simpa [List.replicate_succ, List.dropWhile_cons] using ih

theorem unpadDecimal_pad (n W : Nat) :
    unpadDecimal (padValueWithZeros n W).data = n := by
  show unpadDecimal (List.replicate (W - (decimalChars n).length) '0' ++ decimalChars n) = n
  rw [unpadDecimal, dropWhile_replicate_zero_append]
  by_cases h : n = 0
  · subst h
    decide
  · rw [decimalChars_eq h]
    have hne : Nat.digits 10 n ≠ [] := Nat.digits_ne_nil_iff_ne_zero.mpr h
    obtain ⟨d, tl, hrev⟩ : ∃ d tl, (Nat.digits 10 n).reverse = d :: tl := by
      cases hr : (Nat.digits 10 n).reverse with
      | nil =>
        exact absurd (by simpa using congrArg List.reverse hr) hne
      | cons d tl => exact ⟨d, tl, rfl⟩
    have hmemd : d ∈ Nat.digits 10 n := by
      have : d ∈ (Nat.digits 10 n).reverse := by rw [hrev]; exact List.mem_cons_self _ _
      simpa using this
    have hdlt : d < 10 := Nat.digits_lt_base (by norm_num) hmemd
    have hdne : d ≠ 0 := by
      have hsome : (Nat.digits 10 n).getLast? = some d := by
        rw [List.getLast?_eq_head?_reverse, hrev]
        rfl
      rw [List.getLast?_eq_getLast _ hne] at hsome
      have := Nat.getLast_digit_ne_zero 10 h
      exact (Option.some.inj hsome) ▸ this
    rw [(List.map_reverse Nat.digitChar (Nat.digits 10 n)).symm, hrev]
    simp only [List.map_cons]
    rw [List.dropWhile_cons, if_neg (by simp [digitChar_ne_zeroChar hdne hdlt])]
    have htl : ∀ x ∈ tl, x < 10 := by
      intro x hx
      have : x ∈ (Nat.digits 10 n).reverse := by rw [hrev]; exact List.mem_cons_of_mem _ hx
      exact Nat.digits_lt_base (by norm_num) (by simpa using this)
    have hmap : List.map charToDigit (Nat.digitChar d :: List.map Nat.digitChar tl)
        = d :: tl := by
      simp only [List.map_cons, List.map_map, charToDigit_digitChar hdlt]
      congr 1
      rw [show List.map (charToDigit ∘ Nat.digitChar) tl = List.map id tl from
        List.map_congr_left (fun x hx => charToDigit_digitChar (htl x hx)), List.map_id]
    rw [hmap, ← hrev, List.reverse_reverse]
    exact Nat.ofDigits_digits 10 n

theorem padValueWithZeros_inj {W n m : Nat}
    (h : padValueWithZeros n W = padValueWithZeros m W) : n = m := by
  calc n = unpadDecimal (padValueWithZeros n W).data := (unpadDecimal_pad n W).symm
  _ = unpadDecimal (padValueWithZeros m W).data := by rw [h]
  _ = m := unpadDecimal_pad m W

theorem padValueWithZeros_length (n W : Nat) : W ≤ (padValueWithZeros n W).length := by
  show W ≤ (List.replicate (W - (decimalChars n).length) '0' ++ decimalChars n).length
  rw [List.length_append, List.length_replicate]
  omega

theorem padValueWithZeros_long {n W : Nat} (h : W < (natToDecimalString n).length) :
    padValueWithZeros n W = natToDecimalString n := by
  have h2 : W ≤ (decimalChars n).length := by
    have : (natToDecimalString n).length = (decimalChars n).length := rfl
    omega
  rw [padValueWithZeros, natToDecimalString, Nat.sub_eq_zero_of_le h2]
  simp

/-! Path construction facts. -/

theorem restartBase_inj {restart_folder_ n1 n2 : String}
    (h : restart_folder_ ++ "/" ++ n1 ++ "_rst_" = restart_folder_ ++ "/" ++ n2 ++ "_rst_") :
    n1 = n2 :=
  stringAppendLeftCancel (stringAppendRightCancel h)

theorem restartBases_nodup (restart_folder_ : String) {bodies : List SPHBody}
    (hnd : (bodies.map SPHBody.name).Nodup) :
    (bodies.map (fun body => restart_folder_ ++ "/" ++ body.name ++ "_rst_")).Nodup := by
  have hmm : bodies.map (fun body => restart_folder_ ++ "/" ++ body.name ++ "_rst_")
      = (bodies.map SPHBody.name).map (fun n => restart_folder_ ++ "/" ++ n ++ "_rst_") := by
    rw [List.map_map]
    rfl
  rw [hmm]
  exact hnd.map (fun a b hab => restartBase_inj hab)

theorem fsSet_eq_append_of_lookup_none {p : String} {fs : FS} (c : FileContent)
    (h : fsLookup p fs = none) : fsSet p c fs = fs ++ [(p, c)] := by
  induction fs with
  | nil => rfl
  | cons e rest ih =>
    obtain ⟨q, c0⟩ := e
    by_cases hq : q = p
    · simp [fsLookup, hq] at h
    · simp only [fsLookup, hq, if_neg hq] at h
      simp [fsSet, hq, ih h]

/-- Starting from a filesystem where none of the per-body files exist and
the base names are distinct, the restart body-write loop appends exactly
one entry per body, in list order. -/
theorem writeRestartBodyFiles_fresh (k : Nat) :
    ∀ (pairs : List (String × SPHBody)) (fs : FS),
      (∀ pr ∈ pairs, fsLookup (pr.1 ++ padValueWithZeros k fieldWidth ++ ".xml") fs = none) →
      (pairs.map Prod.fst).Nodup →
      writeRestartBodyFiles k pairs fs
        = fs ++ pairs.map
            (fun pr => (pr.1 ++ padValueWithZeros k fieldWidth ++ ".xml",
              FileContent.bodyFile pr.2.state)) := by
  intro pairs
  induction pairs with
  | nil => intro fs hnone hnd; simp [writeRestartBodyFiles]
  | cons pr rest ih =>
    intro fs hnone hnd
    obtain ⟨f0, b0⟩ := pr
    simp only [List.map_cons, List.nodup_cons] at hnd
    obtain ⟨hnotin, hndrest⟩ := hnd
    have h0 : fsLookup (f0 ++ padValueWithZeros k fieldWidth ++ ".xml") fs = none :=
      hnone _ (List.mem_cons_self _ _)
    simp only [writeRestartBodyFiles]
    rw [if_neg (by simp [fsExists, h0])]
    rw [fsSet_eq_append_of_lookup_none _ h0]
    rw [ih _ ?_ hndrest]
    · simp [List.append_assoc]
    · intro pr2 hpr2
      rw [fsLookup_append_none]
      · have hne : f0 ≠ pr2.1 := by
          intro hcontra
          exact hnotin (hcontra ▸ List.mem_map_of_mem Prod.fst hpr2)
        have hpathne : ¬(f0 ++ padValueWithZeros k fieldWidth ++ ".xml"
            = pr2.1 ++ padValueWithZeros k fieldWidth ++ ".xml") := by
          intro hcontra
          exact hne (stringAppendRightCancel (stringAppendRightCancel hcontra))
        simp [fsLookup, hpathne]
      · exact hnone _ (List.mem_cons_of_mem _ hpr2)

theorem countAt_fsAppendTimeLine_self_none {p : String} {fs : FS} (t : ℚ)
    (h : fsLookup p fs = none) :
    countAt p (fsAppendTimeLine p t fs) = countAt p fs + 1 := by
  unfold fsAppendTimeLine
  rw [h, countAt_append]
  simp [countAt, List.countP_cons]

/-- After one `RestartIO::writeToFile`, whatever the starting filesystem,
the overall file for the written token exists exactly once and holds
exactly one line: the physical time rounded to nine fractional digits. -/
theorem restart_writeToFile_overall (restart_folder_ : String) (bodies : List SPHBody)
    (t : ℚ) (fs : FS) (k : Nat) :
    countAt (restart_folder_ ++ "/Restart_time_" ++ padValueWithZeros k fieldWidth ++ ".dat")
        (( RestartIO.make restart_folder_ bodies).writeToFile bodies t fs k) = 1
    ∧ fsLookup (restart_folder_ ++ "/Restart_time_" ++ padValueWithZeros k fieldWidth ++ ".dat")
        (( RestartIO.make restart_folder_ bodies).writeToFile bodies t fs k)
      = some (FileContent.timeFile [roundTo9 t]) := by
  simp only [ RestartIO.writeToFile, RestartIO.make]
  have hxml : ∀ pr ∈ (List.map (fun body => restart_folder_ ++ "/" ++ body.name ++ "_rst_") bodies).zip bodies,
      pr.1 ++ padValueWithZeros k fieldWidth ++ ".xml"
        ≠ restart_folder_ ++ "/Restart_time_" ++ padValueWithZeros k fieldWidth ++ ".dat" :=
    fun pr _ hcontra => append_dat_ne_append_xml _ _ hcontra.symm
  have hnone1 : fsLookup (restart_folder_ ++ "/Restart_time_" ++ padValueWithZeros k fieldWidth ++ ".dat")
      (if fsExists (restart_folder_ ++ "/Restart_time_" ++ padValueWithZeros k fieldWidth ++ ".dat") fs = true
        then fsRemove (restart_folder_ ++ "/Restart_time_" ++ padValueWithZeros k fieldWidth ++ ".dat") fs
        else fs) = none := by
    cases hex : fsExists (restart_folder_ ++ "/Restart_time_" ++ padValueWithZeros k fieldWidth ++ ".dat") fs with
    | false => simp [fsLookup_eq_none_of_not_exists hex]
    | true => simp [fsLookup_fsRemove_self]
  constructor
  · rw [countAt_writeRestartBodyFiles_notMem _ _ _ _ hxml]
    rw [countAt_fsAppendTimeLine_self_none _ hnone1]
    rw [countAt_eq_zero_of_lookup_none hnone1]
  · rw [fsLookup_writeRestartBodyFiles_notMem _ _ _ _ hxml]
    exact fsLookup_fsAppendTimeLine_self _ hnone1

/-- The written time line differs from the physical time at the write by at
most half an ulp of the ninth fractional digit. -/
theorem roundTo9_close (t : ℚ) : |roundTo9 t - t| ≤ 1 / (2 * 10 ^ 9) := by
  have h1 : ((⌊t * 10 ^ 9 + 1 / 2⌋ : ℤ) : ℚ) ≤ t * 10 ^ 9 + 1 / 2 := Int.floor_le _
  have h2 : t * 10 ^ 9 + 1 / 2 - 1 < ((⌊t * 10 ^ 9 + 1 / 2⌋ : ℤ) : ℚ) := Int.sub_one_lt_floor _
  rw [roundTo9, abs_le]
  constructor <;> [linarith; linarith]

/-- Unfolding of `RestartIO::writeToFile` over a constructed instance. -/
theorem restart_writeToFile_eq (restart_folder_ : String) (bodies : List SPHBody)
    (t : ℚ) (fs : FS) (k : Nat) :
    ( RestartIO.make restart_folder_ bodies).writeToFile bodies t fs k
      = writeRestartBodyFiles k
          ((bodies.map (fun body => restart_folder_ ++ "/" ++ body.name ++ "_rst_")).zip bodies)
          (fsAppendTimeLine
            (restart_folder_ ++ "/Restart_time_" ++ padValueWithZeros k fieldWidth ++ ".dat")
            (roundTo9 t)
            (if fsExists (restart_folder_ ++ "/Restart_time_" ++ padValueWithZeros k fieldWidth ++ ".dat") fs
              then fsRemove (restart_folder_ ++ "/Restart_time_" ++ padValueWithZeros k fieldWidth ++ ".dat") fs
              else fs)) := rfl

/-- Round-trip core: with pairwise-distinct body names, reading the
checkpoint written at step `k` returns the written time line and restores
the written states into any same-named current bodies. -/
theorem restart_write_read_helper (restart_folder_ : String) (bodies cur : List SPHBody)
    (t : ℚ) (fs : FS) (k : Nat)
    (hnd : (bodies.map SPHBody.name).Nodup)
    (hname : cur.map SPHBody.name = bodies.map SPHBody.name) :
    ( RestartIO.make restart_folder_ bodies).readRestartTime
        (( RestartIO.make restart_folder_ bodies).writeToFile bodies t fs k) k
      = Except.ok (roundTo9 t)
    ∧ ( RestartIO.make restart_folder_ bodies).readFromFile cur
        (( RestartIO.make restart_folder_ bodies).writeToFile bodies t fs k) k
      = Except.ok bodies := by
  have hov := (restart_writeToFile_overall restart_folder_ bodies t fs k).2
  constructor
  · simp only [ RestartIO.readRestartTime]
    rw [show ( RestartIO.make restart_folder_ bodies).overall_file_path_
          = restart_folder_ ++ "/Restart_time_" from rfl]
    rw [hov]
    rfl
  · simp only [ RestartIO.readFromFile]
    rw [show ( RestartIO.make restart_folder_ bodies).file_names_
          = bodies.map (fun body => restart_folder_ ++ "/" ++ body.name ++ "_rst_") from rfl]
    apply readRestartBodies_restores
    · simp
    · exact hname
    · intro pr hpr
      obtain ⟨fname, body⟩ := pr
      rw [restart_writeToFile_eq]
      apply fsLookup_writeRestartBodyFiles_mem
      · rw [List.map_fst_zip]
        · exact restartBases_nodup restart_folder_ hnd
        · simp
      · exact hpr

/-- C5: writing at step `k` twice with two physical times leaves exactly
one overall file at the token of `k`, and that file holds exactly one line,
the second time value: the pre-existing file is deleted before the
replacement is written, never appended to. -/
theorem restart_overwrite (restart_folder_ : String) (bodies : List SPHBody)
    (t1 t2 : ℚ) (fs : FS) (k : Nat) :
    countAt (restart_folder_ ++ "/Restart_time_" ++ padValueWithZeros k fieldWidth ++ ".dat")
        (( RestartIO.make restart_folder_ bodies).writeToFile bodies t2
          (( RestartIO.make restart_folder_ bodies).writeToFile bodies t1 fs k) k) = 1
    ∧ fsLookup (restart_folder_ ++ "/Restart_time_" ++ padValueWithZeros k fieldWidth ++ ".dat")
        (( RestartIO.make restart_folder_ bodies).writeToFile bodies t2
          (( RestartIO.make restart_folder_ bodies).writeToFile bodies t1 fs k) k)
      = some (FileContent.timeFile [roundTo9 t2]) :=
  restart_writeToFile_overall restart_folder_ bodies t2 _ k

/-- C9: the token returned by `BaseIO::convertPhysicalTimeToString` is
independent of its argument: in one global state (one value of
`physical_time_`), any two argument values yield equal tokens, because the
token is computed from the global `physical_time_` variable rather than
from the argument. -/
theorem convertPhysicalTimeToString_ignores_argument (physical_time_ t1 t2 : ℚ) :
    convertPhysicalTimeToString physical_time_ t1
      = convertPhysicalTimeToString physical_time_ t2 := rfl

/-- C3 as stated is false: the conversion does not compute the token from
its argument. With the global physical time `0` and argument `1`, the
token is the padding of index `0`, not of `floor(1 * 1000000)`. -/
theorem convertPhysicalTimeToString_counterexample :
    convertPhysicalTimeToString 0 1
      ≠ padValueWithZeros (cppTruncToInt ((1 : ℚ) * 1000000)).toNat fieldWidth := by
  have h0 : cppTruncToInt ((0 : ℚ) * 1000000) = 0 := by
    rw [cppTruncToInt]
    norm_num
  have h1 : cppTruncToInt ((1 : ℚ) * 1000000) = 1000000 := by
    rw [cppTruncToInt]
    norm_num
  rw [convertPhysicalTimeToString, h0, h1]
  decide

/-- C3 amended: the conversion computes the index by casting
`physical_time_ * 1000000` to an integer — truncation toward zero, which
equals `floor` on the nonnegative simulation time — from the global
`physical_time_` variable rather than from its argument, then zero-pads
that index. -/
theorem convertPhysicalTimeToString_from_global (physical_time_ t : ℚ) :
    convertPhysicalTimeToString physical_time_ t
      = padValueWithZeros (cppTruncToInt (physical_time_ * 1000000)).toNat fieldWidth
    ∧ (0 ≤ physical_time_ →
        cppTruncToInt (physical_time_ * 1000000) = ⌊physical_time_ * 1000000⌋) := by
  refine ⟨rfl, fun h => ?_⟩
  rw [cppTruncToInt, if_pos (mul_nonneg h (by norm_num))]

theorem convertPhysicalTimeToString_from_global_witness :
    (0 : ℚ) ≤ 0 ∧ cppTruncToInt ((0 : ℚ) * 1000000) = ⌊(0 : ℚ) * 1000000⌋ :=
  ⟨le_refl 0, (convertPhysicalTimeToString_from_global 0 3).2 (le_refl 0)⟩

/-- C6: `ReloadParticleIO::writeToFile` and `readFromFile` ignore their
step argument: for any two step values the results are identical, and both
operations use exactly the fixed unindexed per-body paths stored in
`file_names_` at construction, so the set of files touched is the same for
every step value. -/
theorem reload_step_argument_unused (rio : ReloadParticleIO) (bodies : List SPHBody)
    (fs : FS) (k1 k2 : Nat) :
    rio.writeToFile bodies fs k1 = rio.writeToFile bodies fs k2
    ∧ rio.readFromFile bodies fs k1 = rio.readFromFile bodies fs k2
    ∧ rio.writeToFile bodies fs k1 = writeReloadBodyFiles (rio.file_names_.zip bodies) fs
    ∧ rio.readFromFile bodies fs k1 = readReloadBodies (rio.file_names_.zip bodies) fs :=
  ⟨rfl, rfl, rfl, rfl⟩

/-- C7: a `ReloadParticleIO` constructed for a body under an override name
writes the reload file at `<reload-folder>/<override>_rld.xml`, and a
second instance constructed with the same override name reads that file
into a differently named body, which receives the written state. -/
theorem reload_override_cross_name (reload_folder_ given_body_name : String)
    (bodyA bodyB : SPHBody) (fs : FS) (k1 k2 : Nat) :
    fsLookup (reload_folder_ ++ "/" ++ given_body_name ++ "_rld.xml")
        (( ReloadParticleIO.makeWithName reload_folder_ bodyA given_body_name).writeToFile
          [bodyA] fs k1)
      = some (FileContent.bodyFile bodyA.state)
    ∧ ( ReloadParticleIO.makeWithName reload_folder_ bodyB given_body_name).readFromFile [bodyB]
        (( ReloadParticleIO.makeWithName reload_folder_ bodyA given_body_name).writeToFile
          [bodyA] fs k1) k2
      = Except.ok [{ bodyB with state := bodyA.state }] := by
  have hw : ( ReloadParticleIO.makeWithName reload_folder_ bodyA given_body_name).writeToFile
        [bodyA] fs k1
      = fsSet (reload_folder_ ++ "/" ++ given_body_name ++ "_rld.xml")
          (FileContent.bodyFile bodyA.state)
          (if fsExists (reload_folder_ ++ "/" ++ given_body_name ++ "_rld.xml") fs
            then fsRemove (reload_folder_ ++ "/" ++ given_body_name ++ "_rld.xml") fs
            else fs) := rfl
  have hlook : fsLookup (reload_folder_ ++ "/" ++ given_body_name ++ "_rld.xml")
      (( ReloadParticleIO.makeWithName reload_folder_ bodyA given_body_name).writeToFile
        [bodyA] fs k1)
      = some (FileContent.bodyFile bodyA.state) := by
    rw [hw]
    exact fsLookup_fsSet_self _ _ _
  refine ⟨hlook, ?_⟩
  show readReloadBodies
      [(reload_folder_ ++ "/" ++ given_body_name ++ "_rld.xml", bodyB)] _ = _
  simp only [readReloadBodies, hlook, readBodyContent]

/-- C1 amended: for every step, every physical time and every list of
bodies with pairwise-distinct names, writing a checkpoint and reading it
back returns exactly the written time line — the physical time rounded to
nine fractional digits, hence equal to the original to nine decimal
digits — and restores each body's state exactly as written into the
same-named bodies, whatever their states at read time. -/
theorem restart_round_trip (restart_folder_ : String) (bodies cur : List SPHBody)
    (t : ℚ) (fs : FS) (k : Nat)
    (hnd : (bodies.map SPHBody.name).Nodup)
    (hname : cur.map SPHBody.name = bodies.map SPHBody.name) :
    ( RestartIO.make restart_folder_ bodies).readRestartTime
        (( RestartIO.make restart_folder_ bodies).writeToFile bodies t fs k) k
      = Except.ok (roundTo9 t)
    ∧ |roundTo9 t - t| ≤ 1 / (2 * 10 ^ 9)
    ∧ ( RestartIO.make restart_folder_ bodies).readFromFile cur
        (( RestartIO.make restart_folder_ bodies).writeToFile bodies t fs k) k
      = Except.ok bodies :=
  ⟨(restart_write_read_helper restart_folder_ bodies cur t fs k hnd hname).1,
   roundTo9_close t,
   (restart_write_read_helper restart_folder_ bodies cur t fs k hnd hname).2⟩

theorem restart_round_trip_witness :
    (([⟨"A", 3⟩, ⟨"B", 4⟩] : List SPHBody).map SPHBody.name).Nodup
    ∧ (([⟨"A", 7⟩, ⟨"B", 8⟩] : List SPHBody).map SPHBody.name
        = ([⟨"A", 3⟩, ⟨"B", 4⟩] : List SPHBody).map SPHBody.name)
    ∧ ( RestartIO.make "restart_output" [⟨"A", 3⟩, ⟨"B", 4⟩]).readFromFile
        [⟨"A", 7⟩, ⟨"B", 8⟩]
        (( RestartIO.make "restart_output" [⟨"A", 3⟩, ⟨"B", 4⟩]).writeToFile
          [⟨"A", 3⟩, ⟨"B", 4⟩] (1 / 4) [] 5) 5
      = Except.ok [⟨"A", 3⟩, ⟨"B", 4⟩] :=
  ⟨by decide, rfl,
    (restart_round_trip "restart_output" [⟨"A", 3⟩, ⟨"B", 4⟩] [⟨"A", 7⟩, ⟨"B", 8⟩]
      (1 / 4) [] 5 (by decide) rfl).2.2⟩

/-- C1 as stated is refuted by a list of bodies sharing one name: both
per-body files collide at the same path, the second write clobbers the
first, and reading back does not restore the first body's written state. -/
theorem restart_round_trip_counterexample :
    ( RestartIO.make "r" [⟨"A", 1⟩, ⟨"A", 2⟩]).readFromFile [⟨"A", 1⟩, ⟨"A", 2⟩]
        (( RestartIO.make "r" [⟨"A", 1⟩, ⟨"A", 2⟩]).writeToFile [⟨"A", 1⟩, ⟨"A", 2⟩] 0 [] 0) 0
      ≠ Except.ok [⟨"A", 1⟩, ⟨"A", 2⟩] := by
  decide

/-- Zipping a list with its own image under a path map and projecting the
second components gives the list back. -/
theorem map_snd_zipWith_map (f : SPHBody → String) (l : List SPHBody) :
    List.map Prod.snd (List.zipWith Prod.mk (List.map f l) l) = l := by
  induction l with
  | nil => rfl
  | cons x xs ih => simp only [List.map_cons, List.zipWith_cons_cons, ih]

/-- C2: when the checkpoint files for step `k` do not exist,
`readRestartTime` and `readFromFile` are fatal: each produces the
diagnostic naming the missing path and terminates the process with the
nonzero status `1`, rather than returning a default or zero state;
`readFromFile` exits at the first body's path with no body state mutated. -/
theorem restart_read_missing_fatal (restart_folder_ : String)
    (b0 : SPHBody) (rest : List SPHBody) (fs : FS) (k : Nat)
    (hov : fsLookup (restart_folder_ ++ "/Restart_time_"
        ++ padValueWithZeros k fieldWidth ++ ".dat") fs = none)
    (hmiss : fsLookup (restart_folder_ ++ "/" ++ b0.name ++ "_rst_"
        ++ padValueWithZeros k fieldWidth ++ ".xml") fs = none) :
    ( RestartIO.make restart_folder_ (b0 :: rest)).readRestartTime fs k
      = Except.error
          { diagnostic := missingFileDiag (restart_folder_ ++ "/Restart_time_"
              ++ padValueWithZeros k fieldWidth ++ ".dat")
          , status := 1 }
    ∧ ( RestartIO.make restart_folder_ (b0 :: rest)).readFromFile (b0 :: rest) fs k
      = Except.error (b0 :: rest,
          { diagnostic := missingFileDiag (restart_folder_ ++ "/" ++ b0.name ++ "_rst_"
              ++ padValueWithZeros k fieldWidth ++ ".xml")
          , status := 1 })
    ∧ (∀ path : String, ∃ pre post : String, missingFileDiag path = pre ++ path ++ post)
    ∧ (1 : Nat) ≠ 0 := by
  refine ⟨?_, ?_, fun path => ⟨"\n Error: the input file:", " is not exists", rfl⟩, by decide⟩
  · simp only [ RestartIO.readRestartTime]
    rw [show ( RestartIO.make restart_folder_ (b0 :: rest)).overall_file_path_
          = restart_folder_ ++ "/Restart_time_" from rfl]
    rw [hov]
  · simp only [ RestartIO.readFromFile]
    rw [show ( RestartIO.make restart_folder_ (b0 :: rest)).file_names_
          = (restart_folder_ ++ "/" ++ b0.name ++ "_rst_")
            :: rest.map (fun body => restart_folder_ ++ "/" ++ body.name ++ "_rst_") from rfl]
    simp only [List.zip_cons_cons, readRestartBodies, hmiss]
    rw [map_snd_zipWith_map]

theorem restart_read_missing_fatal_witness :
    fsLookup ("restart_output" ++ "/Restart_time_" ++ padValueWithZeros 0 fieldWidth ++ ".dat")
        [] = none
    ∧ fsLookup ("restart_output" ++ "/" ++ (⟨"A", 0⟩ : SPHBody).name ++ "_rst_"
        ++ padValueWithZeros 0 fieldWidth ++ ".xml") [] = none
    ∧ ( RestartIO.make "restart_output" [⟨"A", 0⟩]).readRestartTime [] 0
      = Except.error
          { diagnostic := missingFileDiag ("restart_output" ++ "/Restart_time_"
              ++ padValueWithZeros 0 fieldWidth ++ ".dat")
          , status := 1 } :=
  ⟨rfl, rfl, (restart_read_missing_fatal "restart_output" ⟨"A", 0⟩ [] [] 0 rfl rfl).1⟩

/-- C4: over bodies `[A, B]`, `writeToFile(5)` from an empty filesystem
produces exactly the files `Restart_time_000005.dat`, `A_rst_000005.xml`
and `B_rst_000005.xml` in the restart folder, in that order, and
`readFromFile(5)` restores `A` and then `B`, independently and in list
order. -/
theorem restart_two_bodies_write_read (restart_folder_ : String)
    (sA sB s0A s0B : Nat) (t : ℚ) :
    (( RestartIO.make restart_folder_ [⟨"A", sA⟩, ⟨"B", sB⟩]).writeToFile
        [⟨"A", sA⟩, ⟨"B", sB⟩] t [] 5).map Prod.fst
      = [restart_folder_ ++ "/Restart_time_000005.dat",
         restart_folder_ ++ "/A_rst_000005.xml",
         restart_folder_ ++ "/B_rst_000005.xml"]
    ∧ ( RestartIO.make restart_folder_ [⟨"A", sA⟩, ⟨"B", sB⟩]).readFromFile
        [⟨"A", s0A⟩, ⟨"B", s0B⟩]
        (( RestartIO.make restart_folder_ [⟨"A", sA⟩, ⟨"B", sB⟩]).writeToFile
          [⟨"A", sA⟩, ⟨"B", sB⟩] t [] 5) 5
      = Except.ok [⟨"A", sA⟩, ⟨"B", sB⟩] := by
  have hpad : padValueWithZeros 5 fieldWidth = "000005" := by decide
  have h1 : restart_folder_ ++ "/Restart_time_" ++ padValueWithZeros 5 fieldWidth ++ ".dat"
      = restart_folder_ ++ "/Restart_time_000005.dat" := by
    rw [hpad]
    apply stringDataInj
    simp only [String.data_append, List.append_assoc]
    rfl
  have h2 : restart_folder_ ++ "/" ++ "A" ++ "_rst_" ++ padValueWithZeros 5 fieldWidth ++ ".xml"
      = restart_folder_ ++ "/A_rst_000005.xml" := by
    rw [hpad]
    apply stringDataInj
    simp only [String.data_append, List.append_assoc]
    rfl
  have h3 : restart_folder_ ++ "/" ++ "B" ++ "_rst_" ++ padValueWithZeros 5 fieldWidth ++ ".xml"
      = restart_folder_ ++ "/B_rst_000005.xml" := by
    rw [hpad]
    apply stringDataInj
    simp only [String.data_append, List.append_assoc]
    rfl
  constructor
  · rw [restart_writeToFile_eq]
    rw [show (if fsExists (restart_folder_ ++ "/Restart_time_"
          ++ padValueWithZeros 5 fieldWidth ++ ".dat") ([] : FS)
          then fsRemove (restart_folder_ ++ "/Restart_time_"
            ++ padValueWithZeros 5 fieldWidth ++ ".dat") ([] : FS)
          else ([] : FS)) = ([] : FS) from rfl]
    rw [show fsAppendTimeLine (restart_folder_ ++ "/Restart_time_"
          ++ padValueWithZeros 5 fieldWidth ++ ".dat") (roundTo9 t) ([] : FS)
        = [(restart_folder_ ++ "/Restart_time_" ++ padValueWithZeros 5 fieldWidth ++ ".dat",
            FileContent.timeFile [roundTo9 t])] from rfl]
    rw [writeRestartBodyFiles_fresh]
    · simp only [List.map_cons, List.map_nil, List.zip_cons_cons, List.zip_nil_right,
        List.cons_append, List.nil_append, List.singleton_append]
      rw [h1, h2, h3]
    · intro pr hpr
      have hne : ¬(restart_folder_ ++ "/Restart_time_" ++ padValueWithZeros 5 fieldWidth ++ ".dat"
          = pr.1 ++ padValueWithZeros 5 fieldWidth ++ ".xml") :=
        fun hcon => append_dat_ne_append_xml _ _ hcon
      simp [fsLookup, hne]
    · rw [List.map_fst_zip _ _ (by simp)]
      exact restartBases_nodup restart_folder_ (by simp)
  · exact (restart_write_read_helper restart_folder_ [⟨"A", sA⟩, ⟨"B", sB⟩]
      [⟨"A", s0A⟩, ⟨"B", s0B⟩] t [] 5 (by simp) rfl).2

/-- C8: `pad(i)` always has width at least the configured field width `W`,
is injective on indices below `10^W` (indeed on all indices), and when the
natural decimal representation of `i` exceeds `W` digits it returns that
full untruncated representation, with no error. -/
theorem padValueWithZeros_spec (W i j : Nat) :
    W ≤ (padValueWithZeros i W).length
    ∧ (i < 10 ^ W → j < 10 ^ W → padValueWithZeros i W = padValueWithZeros j W → i = j)
    ∧ (W < (natToDecimalString i).length → padValueWithZeros i W = natToDecimalString i) :=
  ⟨padValueWithZeros_length i W,
   fun _ _ h => padValueWithZeros_inj h,
   fun h => padValueWithZeros_long h⟩

theorem padValueWithZeros_spec_witness :
    (6 ≤ (padValueWithZeros 7 6).length ∧ (7 : Nat) < 10 ^ 6 ∧ (7 : Nat) = 7)
    ∧ (6 < (natToDecimalString 1234567).length
      ∧ padValueWithZeros 1234567 6 = natToDecimalString 1234567) :=
  ⟨⟨(padValueWithZeros_spec 6 7 7).1, by decide,
     (padValueWithZeros_spec 6 7 7).2.1 (by decide) (by decide) rfl⟩,
   ⟨by decide, (padValueWithZeros_spec 6 1234567 0).2.2 (by decide)⟩⟩

/-- Per-body read loop on a list whose prefix has files present and whose
next body's file is missing: the prefix is deserialized, then the loop
exits at the missing path with the remainder untouched. -/
theorem readRestartBodies_prefix_error (k : Nat) (fs : FS) (restart_folder_ : String)
    (σ : SPHBody → Nat) :
    ∀ (bs1 : List SPHBody) (b : SPHBody) (bs2 : List SPHBody),
      (∀ a ∈ bs1, fsLookup (restart_folder_ ++ "/" ++ a.name ++ "_rst_"
          ++ padValueWithZeros k fieldWidth ++ ".xml") fs
        = some (FileContent.bodyFile (σ a))) →
      fsLookup (restart_folder_ ++ "/" ++ b.name ++ "_rst_"
          ++ padValueWithZeros k fieldWidth ++ ".xml") fs = none →
      readRestartBodies k
          (((bs1 ++ b :: bs2).map (fun body => restart_folder_ ++ "/" ++ body.name ++ "_rst_")).zip
            (bs1 ++ b :: bs2)) fs
        = Except.error (bs1.map (fun a => { a with state := σ a }) ++ b :: bs2,
            { diagnostic := missingFileDiag (restart_folder_ ++ "/" ++ b.name ++ "_rst_"
                ++ padValueWithZeros k fieldWidth ++ ".xml")
            , status := 1 }) := by
  intro bs1
  induction bs1 with
  | nil =>
    intro b bs2 hex hmiss
    simp only [List.nil_append, List.map_cons, List.zip_cons_cons, readRestartBodies, hmiss,
      List.map_nil]
    rw [map_snd_zipWith_map]
  | cons a as ih =>
    intro b bs2 hex hmiss
    have ha := hex a (List.mem_cons_self _ _)
    have hih := ih b bs2 (fun x hx => hex x (List.mem_cons_of_mem _ hx)) hmiss
    simp only [List.zip] at hih
    simp only [List.cons_append, List.map_cons, List.zip_cons_cons, List.zip, readRestartBodies,
      ha, readBodyContent, List.append_eq, hih]

/-- C10: `RestartIO::readFromFile` is not atomic on error: when the files
for a prefix of the bodies exist but the next body's file is missing, the
prefix bodies have already been deserialized — their states replaced by the
file contents — at the moment the process exits at the missing path, while
the remaining bodies are untouched. -/
theorem restart_readFromFile_not_atomic (restart_folder_ : String)
    (bs1 : List SPHBody) (b : SPHBody) (bs2 : List SPHBody)
    (σ : SPHBody → Nat) (fs : FS) (k : Nat)
    (hex : ∀ a ∈ bs1, fsLookup (restart_folder_ ++ "/" ++ a.name ++ "_rst_"
        ++ padValueWithZeros k fieldWidth ++ ".xml") fs
      = some (FileContent.bodyFile (σ a)))
    (hmiss : fsLookup (restart_folder_ ++ "/" ++ b.name ++ "_rst_"
        ++ padValueWithZeros k fieldWidth ++ ".xml") fs = none) :
    ( RestartIO.make restart_folder_ (bs1 ++ b :: bs2)).readFromFile (bs1 ++ b :: bs2) fs k
      = Except.error (bs1.map (fun a => { a with state := σ a }) ++ b :: bs2,
          { diagnostic := missingFileDiag (restart_folder_ ++ "/" ++ b.name ++ "_rst_"
              ++ padValueWithZeros k fieldWidth ++ ".xml")
          , status := 1 }) := by
  simp only [ RestartIO.readFromFile]
  rw [show ( RestartIO.make restart_folder_ (bs1 ++ b :: bs2)).file_names_
        = (bs1 ++ b :: bs2).map (fun body => restart_folder_ ++ "/" ++ body.name ++ "_rst_")
        from rfl]
  exact readRestartBodies_prefix_error k fs restart_folder_ σ bs1 b bs2 hex hmiss

theorem restart_readFromFile_not_atomic_witness :
    (∀ a ∈ ([⟨"A", 1⟩] : List SPHBody),
        fsLookup ("r" ++ "/" ++ a.name ++ "_rst_" ++ padValueWithZeros 0 fieldWidth ++ ".xml")
          [("r/A_rst_000000.xml", FileContent.bodyFile 9)]
          = some (FileContent.bodyFile 9))
    ∧ fsLookup ("r" ++ "/" ++ (⟨"B", 2⟩ : SPHBody).name ++ "_rst_"
        ++ padValueWithZeros 0 fieldWidth ++ ".xml")
        [("r/A_rst_000000.xml", FileContent.bodyFile 9)] = none
    ∧ ( RestartIO.make "r" (([⟨"A", 1⟩] : List SPHBody) ++ ⟨"B", 2⟩ :: [])).readFromFile
        (([⟨"A", 1⟩] : List SPHBody) ++ ⟨"B", 2⟩ :: [])
        [("r/A_rst_000000.xml", FileContent.bodyFile 9)] 0
      = Except.error (([⟨"A", 1⟩] : List SPHBody).map (fun a => { a with state := 9 })
            ++ ⟨"B", 2⟩ :: [],
          { diagnostic := missingFileDiag ("r" ++ "/" ++ (⟨"B", 2⟩ : SPHBody).name ++ "_rst_"
              ++ padValueWithZeros 0 fieldWidth ++ ".xml")
          , status := 1 }) :=
  ⟨by decide, by decide,
    restart_readFromFile_not_atomic "r" [⟨"A", 1⟩] ⟨"B", 2⟩ [] (fun _ => 9)
      [("r/A_rst_000000.xml", FileContent.bodyFile 9)] 0 (by decide) (by decide)⟩
